import Mathlib

/-!
Verification of the pathWAS core: the Pathway Activation Score (PAS) engine
(`compute_pas`, `_activity_weighted`, `_corr`, `_bicor` from `pathwas/pas/pas.py`)
and the summary-level pathway-TWAS test (`test_pathway_twas` from
`pathwas/association/pathway_test.py`).

Modelling conventions:
* real numbers are modelled by `ℚ` (the repository performs only field
  arithmetic on its own; square roots and correlation coefficients come from
  numpy/pandas library calls, which are abstracted in the `Prims` structure);
* a pandas `Series` is a list of (label, value) pairs; a `DataFrame` is a
  column-labelled `Frame`, each column holding one value per sample row;
* Python exceptions (`ValueError`) are `Except.error` with the exact message;
* the IEEE `nan` returned on the degenerate TWAS branch is `Option.none`.
-/

namespace PathWAS

/-- Numeric primitives consumed (not implemented) by the core: the pandas
pairwise correlation kernels and the square root used by `std`.  The core
treats them as black boxes, so the embedding is parameterised over them. -/
structure Prims where
  pearson : List ℚ → List ℚ → ℚ
  spearman : List ℚ → List ℚ → ℚ
  sqrt : ℚ → ℚ

/-- A pandas Series: labels paired with rational values, in order. -/
abbrev Series := List (String × ℚ)

/-- A pandas DataFrame, stored column-major: column label paired with the
per-sample values of that column. -/
abbrev Frame := List (String × List ℚ)

def seriesKeys (s : Series) : List String := s.map Prod.fst

def seriesVals (s : Series) : List ℚ := s.map Prod.snd

/-- Effectful `map` over a list in the `Except String` monad, stopping at the
first error — the semantics of a Python list comprehension whose body may
raise. -/
def mapE {α β : Type} (f : α → Except String β) : List α → Except String (List β)
  | [] => Except.ok []
  | a :: l =>
    match f a with
    | Except.error e => Except.error e
    | Except.ok b =>
      match mapE f l with
      | Except.error e => Except.error e
      | Except.ok bs => Except.ok (b :: bs)

/-- `z.loc[idx]`: re-index a Series by a list of labels; any label absent from
the Series raises (pandas `KeyError`, surfaced by the source as a
`ValueError`). -/
def locReindex (z : Series) (idx : List String) : Except String Series :=
  mapE (fun k =>
    match z.lookup k with
    | some v => Except.ok (k, v)
    | none => Except.error ("Indices of snp_weights and z_scores must match")) idx

/-- Dot product of two rational vectors. -/
def dot (a b : List ℚ) : ℚ := (List.zipWith (fun x y => x * y) a b).sum

/-- Matrix–vector product, row-major matrix. -/
def matVec (m : List (List ℚ)) (v : List ℚ) : List ℚ := m.map (fun row => dot row v)

/-- The quadratic form `wᵀ · m · w` as the source computes it. -/
def quadForm (w : List ℚ) (m : List (List ℚ)) : ℚ := dot w (matVec m w)

/-- `np.diag`: the main diagonal of a square matrix. -/
def diag (m : List (List ℚ)) : List ℚ :=
  (List.range m.length).map (fun i => (m.getD i []).getD i 0)

/-- `shape[1]` of a (rectangular) matrix: the length of its first row. -/
def ncols (m : List (List ℚ)) : Nat := (m.headD []).length

/-- Pointwise triple zip, used for `weights * (var_pas / snp_var) * z`. -/
def zipWith3Q (f : ℚ → ℚ → ℚ → ℚ) : List ℚ → List ℚ → List ℚ → List ℚ
  | a :: as, b :: bs, c :: cs => f a b c :: zipWith3Q f as bs cs
  | _, _, _ => []

/-- The numeric core of `test_pathway_twas`, after the Z-score series has been
aligned to the weight index: shape validation, variance defaulting, the
quadratic form, the degenerate branch, and the contribution sum. -/
def twas_core (keys : List String) (weights zvals : List ℚ) (ld_matrix : List (List ℚ))
    (snp_var : Option (List ℚ)) (return_contributions : Bool) :
    Except String (Option ℚ × ℚ × Option Series) :=
  if ld_matrix.length ≠ ncols ld_matrix ∨ ld_matrix.length ≠ weights.length then
    Except.error ("ld_matrix dimensions must match number of SNPs")
  else if (snp_var.getD (diag ld_matrix)).length ≠ weights.length then
    Except.error ("snp_var length must match number of SNPs")
  else if quadForm weights ld_matrix ≤ 0 then
    Except.ok (none, 0, if return_contributions then
      some (keys.map (fun k => (k, 0))) else none)
  else
    Except.ok
      (some (zipWith3Q (fun w v z => w * (quadForm weights ld_matrix / v) * z)
        weights (snp_var.getD (diag ld_matrix)) zvals).sum,
      quadForm weights ld_matrix,
      if return_contributions then
        some (keys.zip (zipWith3Q (fun w v z => w * (quadForm weights ld_matrix / v) * z)
          weights (snp_var.getD (diag ld_matrix)) zvals))
      else none)

/-- `test_pathway_twas` from `pathwas/association/pathway_test.py`: align the
Z-score series to the weight index (re-indexing when the index objects are not
equal), then run the numeric core. -/
def test_pathway_twas (snp_weights z_scores : Series) (ld_matrix : List (List ℚ))
    (snp_var : Option (List ℚ)) (return_contributions : Bool) :
    Except String (Option ℚ × ℚ × Option Series) :=
  match (if seriesKeys snp_weights = seriesKeys z_scores then Except.ok z_scores
         else locReindex z_scores (seriesKeys snp_weights)) with
  | Except.error e => Except.error e
  | Except.ok z =>
    twas_core (seriesKeys snp_weights) (seriesVals snp_weights) (seriesVals z)
      ld_matrix snp_var return_contributions

/-! ### Specification-side formulas for the TWAS test -/

/-- The spec's variance formula `Var_PAS = wᵀ · LD · w`, written as an explicit
double sum over indices. -/
def specVarPAS (w : List ℚ) (ld : List (List ℚ)) : ℚ :=
  ∑ i ∈ Finset.range w.length, ∑ j ∈ Finset.range w.length,
    w.getD i 0 * ((ld.getD i []).getD j 0) * w.getD j 0

/-- The spec's per-SNP contribution `w_i · (Var_PAS / var_i) · z_i`. -/
def specContrib (w vv z : List ℚ) (v : ℚ) (i : Nat) : ℚ :=
  w.getD i 0 * (v / vv.getD i 0) * z.getD i 0

/-- The spec's pathway Z-score: the sum of all per-SNP contributions. -/
def specZ (w vv z : List ℚ) (v : ℚ) : ℚ :=
  ∑ i ∈ Finset.range w.length, specContrib w vv z v i

/-! ### The PAS engine (`pathwas/pas/pas.py`) -/

/-- ASCII lowering of one character, as Python `str.lower` acts on the ASCII
method names used by the engine. -/
def lowerChar (c : Char) : Char :=
  if 65 ≤ c.toNat ∧ c.toNat ≤ 90 then Char.ofNat (c.toNat + 32) else c

/-- Python `str.lower()` restricted to ASCII (sufficient for the recognised
method and correlation-method names). -/
def lowerStr (s : String) : String := String.mk (s.data.map lowerChar)

def frameCols (df : Frame) : List String := df.map Prod.fst

/-- Column selection by label (`df[g]`), first matching column. -/
def frameGet (df : Frame) (g : String) : List ℚ := (df.lookup g).getD []

/-- `df[genes]`: the sub-frame of the listed columns, in the listed order. -/
def subFrame (df : Frame) (genes : List String) : Frame :=
  genes.map (fun g => (g, frameGet df g))

/-- The number of sample rows of a frame. -/
def nRowsF (df : Frame) : Nat := (df.headD ("", [])).2.length

/-- The values of sample row `i` across the columns of a frame. -/
def rowAt (df : Frame) (i : Nat) : List ℚ := df.map (fun c => c.2.getD i 0)

/-- Arithmetic mean of a list (`np.mean`, pandas `mean`). -/
def listMean (xs : List ℚ) : ℚ := xs.sum / xs.length

/-- Population variance (pandas `var`/`std` with `ddof=0`, before the square
root). -/
def popVar (xs : List ℚ) : ℚ := listMean (xs.map (fun x => (x - listMean xs) ^ 2))

def insertSorted (x : ℚ) : List ℚ → List ℚ
  | [] => [x]
  | y :: ys => if x ≤ y then x :: y :: ys else y :: insertSorted x ys

def sortQ (xs : List ℚ) : List ℚ := xs.foldr insertSorted []

/-- pandas `median` of a nonempty list: middle element of the sorted list, or
the mean of the two middle elements. -/
def medianQ (xs : List ℚ) : ℚ :=
  if xs.length % 2 = 1 then (sortQ xs).getD (xs.length / 2) 0
  else ((sortQ xs).getD (xs.length / 2 - 1) 0 + (sortQ xs).getD (xs.length / 2) 0) / 2

def rowSumF (df : Frame) : List ℚ :=
  (List.range (nRowsF df)).map (fun i => (rowAt df i).sum)

def rowMeanF (df : Frame) : List ℚ :=
  (List.range (nRowsF df)).map (fun i => listMean (rowAt df i))

def rowMedianF (df : Frame) : List ℚ :=
  (List.range (nRowsF df)).map (fun i => medianQ (rowAt df i))

/-- `_bicor` from `pas.py`: the placeholder biweight midcorrelation, which
simply falls back to Pearson correlation. -/
def _bicor (prims : Prims) (x y : List ℚ) : ℚ := prims.pearson x y

/-- `_corr` from `pas.py`: dispatch on the (lowercased) correlation-method
name; unknown names raise. -/
def _corr (prims : Prims) (x y : List ℚ) (method : String) : Except String ℚ :=
  if lowerStr method = "pearson" then Except.ok (prims.pearson x y)
  else if lowerStr method = "spearman" then Except.ok (prims.spearman x y)
  else if lowerStr method = "bicor" then Except.ok (_bicor prims x y)
  else Except.error ("Unknown correlation method: " ++ lowerStr method)

/-- `_activity_weighted` from `pas.py`: single-gene pathways get weight 1 and
the unchanged expression column; otherwise every gene's weight is the mean
absolute pairwise correlation with the other genes, and the PAS is the
weighted column sum divided by the total weight. -/
def _activity_weighted (prims : Prims) (expr : Frame) (corr_method : String) :
    Except String (List ℚ × Series) :=
  if (frameCols expr).length = 1 then
    Except.ok (frameGet expr ((frameCols expr).headD ""),
      [((frameCols expr).headD "", 1)])
  else
    match mapE (fun g =>
        match mapE (fun o => _corr prims (frameGet expr g) (frameGet expr o) corr_method)
            ((frameCols expr).filter (fun o => o ≠ g)) with
        | Except.error e => Except.error e
        | Except.ok corrs => Except.ok (g,
            if corrs.isEmpty then 1 else listMean (corrs.map (fun c => |c|))))
      (frameCols expr) with
    | Except.error e => Except.error e
    | Except.ok ws =>
      Except.ok ((List.range (nRowsF expr)).map (fun i =>
        (rowAt (expr.map (fun c => (c.1, c.2.map (fun x => x * ((ws.lookup c.1).getD 0))))) i).sum
          / (ws.map Prod.snd).sum), ws)

/-- The per-pathway dispatch of `compute_pas` on the (already lowercased)
method name. -/
def aggregate (prims : Prims) (method corr_method : String) (sub_expr : Frame) :
    Except String (List ℚ × Option Series) :=
  if method = "sum" then Except.ok (rowSumF sub_expr, none)
  else if method = "mean" then Except.ok (rowMeanF sub_expr, none)
  else if method = "median" then Except.ok (rowMedianF sub_expr, none)
  else if method = "activity_weighted" then
    match _activity_weighted prims sub_expr corr_method with
    | Except.error e => Except.error e
    | Except.ok pw => Except.ok (pw.1, some pw.2)
  else Except.error ("Unknown PAS method: " ++ method)

/-- The pathway loop of `compute_pas`: intersect each pathway with the
expression columns, skip empty intersections, aggregate the rest in order. -/
def processPathways (prims : Prims) (expression_df : Frame) (method corr_method : String) :
    List (String × List String) → Except String (Frame × List (String × Series))
  | [] => Except.ok ([], [])
  | (pw, genes) :: rest =>
    if (genes.filter (fun g => decide (g ∈ frameCols expression_df))).isEmpty then
      processPathways prims expression_df method corr_method rest
    else
      match aggregate prims method corr_method
          (subFrame expression_df
            (genes.filter (fun g => decide (g ∈ frameCols expression_df)))) with
      | Except.error e => Except.error e
      | Except.ok pv =>
        match processPathways prims expression_df method corr_method rest with
        | Except.error e => Except.error e
        | Except.ok sw =>
          Except.ok ((pw, pv.1) :: sw.1,
            match pv.2 with
            | some w => (pw, w) :: sw.2
            | none => sw.2)

/-- Column-wise z-scoring with the population standard deviation (pandas
`(df - df.mean(axis=0)) / df.std(axis=0, ddof=0)`). -/
def zscoreL (prims : Prims) (xs : List ℚ) : List ℚ :=
  xs.map (fun x => (x - listMean xs) / prims.sqrt (popVar xs))

def normSamples (prims : Prims) (df : Frame) : Frame :=
  df.map (fun c => (c.1, zscoreL prims c.2))

/-- Row-wise z-scoring (pandas `((df.T - df.T.mean(axis=0)) / df.T.std(axis=0,
ddof=0)).T`). -/
def normPathways (prims : Prims) (df : Frame) : Frame :=
  df.map (fun c => (c.1, (List.range c.2.length).map (fun i =>
    (c.2.getD i 0 - listMean (rowAt df i)) / prims.sqrt (popVar (rowAt df i)))))

/-- pandas `DataFrame.empty`: no columns, or columns of length zero. -/
def frameEmpty (df : Frame) : Bool := df.isEmpty || (df.headD ("", [])).2.isEmpty

/-- `compute_pas` from `pas.py`: lowercase the method name, run the pathway
loop, optionally normalize, and return the weights map only for the
activity-weighted method. -/
def compute_pas (prims : Prims) (expression_df : Frame)
    (pathway_dict : List (String × List String)) (method corr_method : String)
    (normalize_samples normalize_pathways : Bool) :
    Except String (Frame × Option (List (String × Series))) :=
  match processPathways prims expression_df (lowerStr method) corr_method pathway_dict with
  | Except.error e => Except.error e
  | Except.ok sw =>
    let d1 := if normalize_samples && !frameEmpty sw.1 then normSamples prims sw.1 else sw.1
    let d2 := if normalize_pathways && !frameEmpty d1 then normPathways prims d1 else d1
    Except.ok (d2, if lowerStr method = "activity_weighted" then some sw.2 else none)

/-- A concrete instantiation of the abstract numeric primitives, used only to
state witnesses and counterexamples on closed inputs. -/
def constPrims : Prims := ⟨fun _ _ => 0, fun _ _ => 0, fun _ => 0⟩

/-! ### Specification-side formulas for activity weighting -/

/-- The spec's activity weight of gene `g`: the mean of the absolute pairwise
correlations between `g` and every other gene of the subset. -/
def awWeight (f : List ℚ → List ℚ → ℚ) (expr : Frame) (g : String) : ℚ :=
  listMean (((frameCols expr).filter (fun o => o ≠ g)).map
    (fun o => |f (frameGet expr g) (frameGet expr o)|))

/-- The activity-weight series over all genes of the subset, in column order. -/
def awWeights (f : List ℚ → List ℚ → ℚ) (expr : Frame) : Series :=
  (frameCols expr).map (fun g => (g, awWeight f expr g))

/-- The spec's activity-weighted PAS: per sample, the weighted sum of gene
expression values divided by the sum of all weights. -/
def awPAS (f : List ℚ → List ℚ → ℚ) (expr : Frame) : List ℚ :=
  (List.range (nRowsF expr)).map (fun i =>
    ((frameCols expr).map (fun g => awWeight f expr g * (frameGet expr g).getD i 0)).sum
      / ((frameCols expr).map (fun g => awWeight f expr g)).sum)

instance instDecEqExcept {α : Type} [DecidableEq α] : DecidableEq (Except String α) :=
  fun a b =>
  match a, b with
  | Except.error x, Except.error y =>
    if h : x = y then isTrue (by rw [h]) else isFalse (fun hc => h (by injection hc))
  | Except.ok x, Except.ok y =>
    if h : x = y then isTrue (by rw [h]) else isFalse (fun hc => h (by injection hc))
  | Except.error _, Except.ok _ => isFalse (fun hc => by injection hc)
  | Except.ok _, Except.error _ => isFalse (fun hc => by injection hc)

instance instDecEqPasResult : DecidableEq (Frame × Option (List (String × Series))) :=
  instDecidableEqProd

/-! ### Generic list lemmas -/

theorem mapE_ok {α β : Type} (f : α → Except String β) (g : α → β) :
    ∀ l : List α, (∀ a ∈ l, f a = Except.ok (g a)) → mapE f l = Except.ok (l.map g) := by
  intro l
  induction l with
  | nil => intro _; rfl
  | cons a l ih =>
    intro h
    have ha := h a (by simp)
    have hl := ih (fun b hb => h b (by simp [hb]))
    simp [mapE, ha, hl]

theorem mapE_congr {α β : Type} (f g : α → Except String β) :
    ∀ l : List α, (∀ a ∈ l, f a = g a) → mapE f l = mapE g l := by
  intro l
  induction l with
  | nil => intro _; rfl
  | cons a l ih =>
    intro h
    have ha := h a (by simp)
    have hl := ih (fun b hb => h b (by simp [hb]))
    simp [mapE, ha, hl]

theorem mapE_cons_ok {α β : Type} (f : α → Except String β) (a : α) (l : List α) (b : β)
    (h : f a = Except.ok b) (bs : List β) (hl : mapE f l = Except.ok bs) :
    mapE f (a :: l) = Except.ok (b :: bs) := by
  simp only [mapE, h, hl]

theorem mapE_error_mem {α β : Type} (f : α → Except String β) :
    ∀ l : List α, ∀ e, mapE f l = Except.error e → ∃ a ∈ l, f a = Except.error e := by
  intro l
  induction l with
  | nil => intro e h; simp [mapE] at h
  | cons a l ih =>
    intro e h
    by_cases hfa : ∃ b, f a = Except.ok b
    · obtain ⟨b, hb⟩ := hfa
      simp only [mapE, hb] at h
      cases hml : mapE f l with
      | error e2 =>
        rw [hml] at h
        injection h with h
        obtain ⟨c, hc, hfc⟩ := ih e2 hml
        exact ⟨c, by simp [hc], by rw [hfc, h]⟩
      | ok bs => rw [hml] at h; exact absurd h (by simp)
    · cases hfa2 : f a with
      | error e2 =>
        simp only [mapE, hfa2] at h
        injection h with h
        exact ⟨a, by simp, by rw [hfa2, h]⟩
      | ok b => exact absurd ⟨b, hfa2⟩ hfa

theorem getD_map_of_lt {α β : Type} (f : α → β) (d : α) :
    ∀ (l : List α) (i : Nat), i < l.length → (l.map f).getD i (f d) = f (l.getD i d) := by
  intro l
  induction l with
  | nil => intro i h; simp at h
  | cons a l ih =>
    intro i h
    cases i with
    | zero => rfl
    | succ j =>
      simp only [List.map_cons, List.getD_cons_succ]
      exact ih j (by simpa using h)

theorem getD_mem_of_lt {α : Type} (d : α) :
    ∀ (l : List α) (i : Nat), i < l.length → l.getD i d ∈ l := by
  intro l i h
  rw [List.getD_eq_getElem l d h]
  exact List.getElem_mem h

theorem sum_map_range (f : ℕ → ℚ) :
    ∀ n : ℕ, ((List.range n).map f).sum = ∑ i ∈ Finset.range n, f i := by
  intro n
  induction n with
  | zero => rfl
  | succ m ih => rw [List.range_succ, Finset.sum_range_succ]; simp [ih]

theorem dot_eq_sum : ∀ (a b : List ℚ) (n : Nat), a.length = n → b.length = n →
    dot a b = ∑ i ∈ Finset.range n, a.getD i 0 * b.getD i 0 := by
  intro a
  induction a with
  | nil =>
    intro b n ha _
    simp only [List.length_nil] at ha
    subst ha
    simp [dot]
  | cons x xs ih =>
    intro b n ha hb
    cases b with
    | nil =>
      exfalso
      simp only [List.length_nil] at hb
      simp only [List.length_cons] at ha
      omega
    | cons y ys =>
      cases n with
      | zero => simp at ha
      | succ m =>
        simp only [List.length_cons, Nat.succ.injEq] at ha hb
        rw [Finset.sum_range_succ']
        simp only [List.getD_cons_succ, List.getD_cons_zero]
        have : dot (x :: xs) (y :: ys) = x * y + dot xs ys := by
          simp [dot, List.zipWith_cons_cons]
        rw [this, ih ys m ha hb, add_comm]

theorem zipWith3Q_eq_map_range (f : ℚ → ℚ → ℚ → ℚ) :
    ∀ (a b c : List ℚ) (n : Nat), a.length = n → b.length = n → c.length = n →
    zipWith3Q f a b c =
      (List.range n).map (fun i => f (a.getD i 0) (b.getD i 0) (c.getD i 0)) := by
  intro a
  induction a with
  | nil =>
    intro b c n ha _ _
    simp only [List.length_nil] at ha
    subst ha
    simp [zipWith3Q]
  | cons x xs ih =>
    intro b c n ha hb hc
    cases b with
    | nil =>
      exfalso
      simp only [List.length_nil] at hb
      simp only [List.length_cons] at ha
      omega
    | cons y ys =>
      cases c with
      | nil =>
        exfalso
        simp only [List.length_nil] at hc
        simp only [List.length_cons] at ha
        omega
      | cons z zs =>
        cases n with
        | zero => simp at ha
        | succ m =>
          simp only [List.length_cons, Nat.succ.injEq] at ha hb hc
          rw [List.range_succ_eq_map]
          simp only [zipWith3Q, List.map_cons, List.getD_cons_zero, List.map_map]
          rw [ih ys zs m ha hb hc]
          congr 1

theorem seriesKeys_length (s : Series) : (seriesKeys s).length = s.length := by
  simp [seriesKeys]

theorem seriesVals_length (s : Series) : (seriesVals s).length = s.length := by
  simp [seriesVals]

theorem lookup_cons_self {β : Type} (k : String) (v : β) (rest : List (String × β)) :
    ((k, v) :: rest).lookup k = some v := by
  simp [List.lookup]

theorem lookup_cons_ne {β : Type} (k k0 : String) (v : β) (rest : List (String × β))
    (h : k ≠ k0) : ((k0, v) :: rest).lookup k = rest.lookup k := by
  rw [List.lookup, show (k == k0) = false from beq_eq_false_iff_ne.mpr h]

theorem lookup_eq_none_of_not_mem (z : Series) (k : String) :
    k ∉ seriesKeys z → z.lookup k = none := by
  induction z with
  | nil => intro _; rfl
  | cons p rest ih =>
    obtain ⟨k0, v⟩ := p
    intro h
    simp only [seriesKeys, List.map_cons, List.mem_cons] at h
    push_neg at h
    rw [lookup_cons_ne k k0 v rest h.1]
    exact ih h.2

theorem lookup_isSome_of_mem (z : Series) (k : String) :
    k ∈ seriesKeys z → ∃ v, z.lookup k = some v := by
  induction z with
  | nil => intro h; simp [seriesKeys] at h
  | cons p rest ih =>
    obtain ⟨k0, v⟩ := p
    intro h
    by_cases hk : k = k0
    · subst hk; exact ⟨v, lookup_cons_self k v rest⟩
    · rw [lookup_cons_ne k k0 v rest hk]
      apply ih
      simp only [seriesKeys, List.map_cons, List.mem_cons] at h
      rcases h with h | h
      · exact absurd h hk
      · exact h

theorem quadForm_eq_specVarPAS (w : List ℚ) (ld : List (List ℚ))
    (hn : ld.length = w.length) (hrect : ∀ row ∈ ld, row.length = w.length) :
    quadForm w ld = specVarPAS w ld := by
  have hmv : (matVec ld w).length = w.length := by simp [matVec, hn]
  rw [quadForm, dot_eq_sum w (matVec ld w) w.length rfl hmv, specVarPAS]
  apply Finset.sum_congr rfl
  intro i hi
  have hi2 : i < w.length := Finset.mem_range.mp hi
  have hild : i < ld.length := by omega
  have hget : (matVec ld w).getD i 0 = dot (ld.getD i []) w := by
    have := getD_map_of_lt (fun row => dot row w) [] ld i hild
    simpa [matVec, dot] using this
  rw [hget, dot_eq_sum (ld.getD i []) w w.length
    (hrect (ld.getD i []) (getD_mem_of_lt [] ld i hild)) rfl, Finset.mul_sum]
  apply Finset.sum_congr rfl
  intro j _
  ring

/-! ### Lemmas about `locReindex` (pandas `.loc` re-indexing) -/

theorem locReindex_error (z : Series) (k : String) :
    ∀ idx : List String, k ∈ idx → z.lookup k = none →
    locReindex z idx = Except.error ("Indices of snp_weights and z_scores must match") := by
  intro idx
  induction idx with
  | nil => intro hk; simp at hk
  | cons a rest ih =>
    intro hk hnone
    by_cases ha : z.lookup a = none
    · simp only [locReindex, mapE, ha]
    · obtain ⟨v, hv⟩ := Option.ne_none_iff_exists'.mp ha
      have hk2 : k ∈ rest := by
        rcases List.mem_cons.mp hk with h | h
        · exfalso; rw [← h, hnone] at hv; exact Option.noConfusion hv
        · exact h
      have hrest := ih hk2 hnone
      simp only [locReindex, mapE, hv] at hrest ⊢
      rw [hrest]

theorem locReindex_ok_keys (z : Series) :
    ∀ (idx : List String) (z2 : Series),
    locReindex z idx = Except.ok z2 → seriesKeys z2 = idx := by
  intro idx
  induction idx with
  | nil =>
    intro z2 h
    simp only [locReindex, mapE] at h
    injection h with h
    rw [← h]
    rfl
  | cons a rest ih =>
    intro z2 h
    cases hla : z.lookup a with
    | none =>
      rw [locReindex_error z a (a :: rest) (by simp) hla] at h
      exact absurd h (by simp)
    | some v =>
      simp only [locReindex, mapE, hla] at h
      cases hrest : mapE (fun k =>
          match z.lookup k with
          | some v => Except.ok (k, v)
          | none => Except.error ("Indices of snp_weights and z_scores must match")) rest with
      | error e => rw [hrest] at h; exact absurd h (by simp)
      | ok bs =>
        rw [hrest] at h
        injection h with h
        have hbs := ih bs hrest
        rw [← h]
        simp [seriesKeys] at hbs ⊢
        exact hbs

theorem locReindex_self (z : Series) :
    (seriesKeys z).Nodup → locReindex z (seriesKeys z) = Except.ok z := by
  induction z with
  | nil => intro _; rfl
  | cons p rest ih =>
    obtain ⟨k0, v⟩ := p
    intro hnd
    simp only [seriesKeys, List.map_cons, List.nodup_cons] at hnd
    obtain ⟨hk0, hnd2⟩ := hnd
    have hstep : locReindex ((k0, v) :: rest) (seriesKeys rest) = locReindex rest (seriesKeys rest) := by
      apply mapE_congr
      intro a ha
      have hne : a ≠ k0 := fun hc => hk0 (hc ▸ ha)
      rw [lookup_cons_ne a k0 v rest hne]
    have hfull : locReindex ((k0, v) :: rest) (seriesKeys rest) = Except.ok rest := by
      rw [hstep, ih hnd2]
    show locReindex ((k0, v) :: rest) (k0 :: seriesKeys rest) = Except.ok ((k0, v) :: rest)
    exact mapE_cons_ok _ k0 (seriesKeys rest) (k0, v) (by rw [lookup_cons_self]) rest hfull

theorem locReindex_ok_of_subset (z : Series) :
    ∀ idx : List String, (∀ k ∈ idx, k ∈ seriesKeys z) →
    ∃ z2, locReindex z idx = Except.ok z2 := by
  intro idx
  induction idx with
  | nil => intro _; exact ⟨[], rfl⟩
  | cons a rest ih =>
    intro h
    obtain ⟨v, hv⟩ := lookup_isSome_of_mem z a (h a (by simp))
    obtain ⟨z2, hz2⟩ := ih (fun k hk => h k (by simp [hk]))
    refine ⟨(a, v) :: z2, ?_⟩
    simp only [locReindex, mapE, hv] at hz2 ⊢
    rw [hz2]

/-- Entering the numeric core once the key lists agree. -/
theorem twas_aligned (wts zs : Series) (ld : List (List ℚ)) (sv : Option (List ℚ))
    (rc : Bool) (hkeys : seriesKeys wts = seriesKeys zs) :
    test_pathway_twas wts zs ld sv rc =
      twas_core (seriesKeys wts) (seriesVals wts) (seriesVals zs) ld sv rc := by
  unfold test_pathway_twas
  rw [if_pos hkeys]

/-! ### Claim theorems for the pathway-TWAS test -/

/-- C1: for weight and Z-score series aligned on the same SNP index, a square
LD matrix of matching dimension, and nonzero per-SNP variances (taken from the
LD diagonal when `snp_var` is omitted), if `wᵀ·LD·w > 0` then
`test_pathway_twas` returns `Var_PAS = wᵀ·LD·w` and pathway Z-score
`Z = ∑ i, w_i·(Var_PAS/var_i)·z_i`; with `return_contributions` it additionally
returns the per-SNP contribution vector with entry `w_i·(Var_PAS/var_i)·z_i`
under the same SNP keys, whose entries sum exactly to `Z`. -/
theorem twas_formula (wts zs : Series) (ld : List (List ℚ)) (sv : Option (List ℚ))
    (hkeys : seriesKeys wts = seriesKeys zs)
    (hsq : ld.length = ncols ld)
    (hn : ld.length = wts.length)
    (hrect : ∀ row ∈ ld, row.length = wts.length)
    (hlen : (sv.getD (diag ld)).length = wts.length)
    (hvar : ∀ v ∈ sv.getD (diag ld), v ≠ 0)
    (hpos : 0 < specVarPAS (seriesVals wts) ld) :
    test_pathway_twas wts zs ld sv true = Except.ok
      (some (specZ (seriesVals wts) (sv.getD (diag ld)) (seriesVals zs)
          (specVarPAS (seriesVals wts) ld)),
        specVarPAS (seriesVals wts) ld,
        some ((seriesKeys wts).zip ((List.range wts.length).map
          (specContrib (seriesVals wts) (sv.getD (diag ld)) (seriesVals zs)
            (specVarPAS (seriesVals wts) ld)))))
    ∧ test_pathway_twas wts zs ld sv false = Except.ok
      (some (specZ (seriesVals wts) (sv.getD (diag ld)) (seriesVals zs)
          (specVarPAS (seriesVals wts) ld)),
        specVarPAS (seriesVals wts) ld, none)
    ∧ ((List.range wts.length).map
        (specContrib (seriesVals wts) (sv.getD (diag ld)) (seriesVals zs)
          (specVarPAS (seriesVals wts) ld))).sum
      = specZ (seriesVals wts) (sv.getD (diag ld)) (seriesVals zs)
          (specVarPAS (seriesVals wts) ld) := by
  clear hvar
  have hwl : (seriesVals wts).length = wts.length := seriesVals_length wts
  have hzl : (seriesVals zs).length = wts.length := by
    rw [seriesVals_length]
    have h := congrArg List.length hkeys
    rw [seriesKeys_length, seriesKeys_length] at h
    omega
  have hn2 : ld.length = (seriesVals wts).length := by rw [hwl]; exact hn
  have hrect2 : ∀ row ∈ ld, row.length = (seriesVals wts).length := fun r hr => by
    rw [hwl]; exact hrect r hr
  have hQ : quadForm (seriesVals wts) ld = specVarPAS (seriesVals wts) ld :=
    quadForm_eq_specVarPAS _ ld hn2 hrect2
  have c1 : ¬(ld.length ≠ ncols ld ∨ ld.length ≠ (seriesVals wts).length) := by
    push_neg
    exact ⟨hsq, hn2⟩
  have c2 : ¬((sv.getD (diag ld)).length ≠ (seriesVals wts).length) := by
    rw [hwl]
    exact fun hc => hc hlen
  have c3 : ¬(quadForm (seriesVals wts) ld ≤ 0) := by
    rw [hQ]
    exact not_le.mpr hpos
  have hcontrib : zipWith3Q (fun w v z => w * (quadForm (seriesVals wts) ld / v) * z)
      (seriesVals wts) (sv.getD (diag ld)) (seriesVals zs)
      = (List.range wts.length).map
        (specContrib (seriesVals wts) (sv.getD (diag ld)) (seriesVals zs)
          (specVarPAS (seriesVals wts) ld)) := by
    rw [zipWith3Q_eq_map_range _ _ _ _ wts.length hwl hlen hzl]
    apply List.map_congr_left
    intro i _
    rw [specContrib, hQ]
  have hsum : ((List.range wts.length).map
      (specContrib (seriesVals wts) (sv.getD (diag ld)) (seriesVals zs)
        (specVarPAS (seriesVals wts) ld))).sum
      = specZ (seriesVals wts) (sv.getD (diag ld)) (seriesVals zs)
        (specVarPAS (seriesVals wts) ld) := by
    rw [sum_map_range, specZ, hwl]
  refine ⟨?_, ?_, hsum⟩
  · rw [twas_aligned wts zs ld sv true hkeys]
    unfold twas_core
    rw [if_neg c1, if_neg c2, if_neg c3, hcontrib, hsum, hQ]
    rfl
  · rw [twas_aligned wts zs ld sv false hkeys]
    unfold twas_core
    rw [if_neg c1, if_neg c2, if_neg c3, hcontrib, hsum, hQ]
    rfl

/-- Witness for C1 at the spec's concrete example: weights=[0.5,0.5],
z=[1,2], LD=[[1,0.1],[0.1,1]] yields Var_PAS=0.55, Z=0.825, contributions
[0.275,0.55]. -/
theorem twas_formula_witness :
    test_pathway_twas [("snp1", (1:ℚ)/2), ("snp2", 1/2)]
      [("snp1", (1:ℚ)), ("snp2", 2)] [[1, 1/10], [1/10, 1]] none true = Except.ok
        (some (33/40), 11/20, some [("snp1", 11/40), ("snp2", 11/20)]) := by
  have h := (twas_formula [("snp1", (1:ℚ)/2), ("snp2", 1/2)]
    [("snp1", (1:ℚ)), ("snp2", 2)] [[1, 1/10], [1/10, 1]] none
    (by decide) (by decide) (by decide) (by decide)
    (by norm_num [diag, ncols])
    (by decide)
    (by norm_num [specVarPAS, seriesVals, Finset.sum_range_succ])).1
  rw [h]
  norm_num [specZ, specContrib, specVarPAS, seriesVals, seriesKeys, diag, ncols,
    Finset.sum_range_succ, List.range_succ]

/-- C3: when the computed variance `wᵀ·LD·w` is non-positive,
`test_pathway_twas` does not raise: it returns a not-a-number pathway Z-score
(modelled as `none`), a `Var_PAS` of exactly 0, and, when requested, an
all-zero contribution vector over the same SNP keys. -/
theorem twas_degenerate (wts zs : Series) (ld : List (List ℚ)) (sv : Option (List ℚ))
    (rc : Bool)
    (hkeys : seriesKeys wts = seriesKeys zs)
    (hsq : ld.length = ncols ld)
    (hn : ld.length = wts.length)
    (hrect : ∀ row ∈ ld, row.length = wts.length)
    (hlen : (sv.getD (diag ld)).length = wts.length)
    (hneg : specVarPAS (seriesVals wts) ld ≤ 0) :
    test_pathway_twas wts zs ld sv rc = Except.ok
      (none, 0, if rc then some ((seriesKeys wts).map (fun k => (k, 0))) else none) := by
  have hwl : (seriesVals wts).length = wts.length := seriesVals_length wts
  have hn2 : ld.length = (seriesVals wts).length := by rw [hwl]; exact hn
  have hrect2 : ∀ row ∈ ld, row.length = (seriesVals wts).length := fun r hr => by
    rw [hwl]; exact hrect r hr
  have hQ : quadForm (seriesVals wts) ld = specVarPAS (seriesVals wts) ld :=
    quadForm_eq_specVarPAS _ ld hn2 hrect2
  have c1 : ¬(ld.length ≠ ncols ld ∨ ld.length ≠ (seriesVals wts).length) := by
    push_neg
    exact ⟨hsq, hn2⟩
  have c2 : ¬((sv.getD (diag ld)).length ≠ (seriesVals wts).length) := by
    rw [hwl]
    exact fun hc => hc hlen
  have c3 : quadForm (seriesVals wts) ld ≤ 0 := by rw [hQ]; exact hneg
  rw [twas_aligned wts zs ld sv rc hkeys]
  unfold twas_core
  rw [if_neg c1, if_neg c2, if_pos c3]

/-- Witness for C3 at the spec's concrete example: weights=[0,0], z=[1,2],
LD=identity yields a not-a-number Z, `Var_PAS = 0`, and zero contributions. -/
theorem twas_degenerate_witness :
    test_pathway_twas [("a", (0:ℚ)), ("b", 0)] [("a", (1:ℚ)), ("b", 2)]
      [[1, 0], [0, 1]] none true = Except.ok (none, 0, some [("a", 0), ("b", 0)]) := by
  have h := twas_degenerate [("a", (0:ℚ)), ("b", 0)] [("a", (1:ℚ)), ("b", 2)]
    [[1, 0], [0, 1]] none true (by decide) (by decide) (by decide) (by decide)
    (by norm_num [diag, ncols])
    (by norm_num [specVarPAS, seriesVals, Finset.sum_range_succ])
  rw [h]
  simp [seriesKeys]

/-- C6: a non-square LD matrix or one whose dimension differs from the number
of SNPs fails with the dimension error; a supplied variance vector of wrong
length fails with the length error, whatever the numeric entries are; and an
omitted variance vector behaves exactly as supplying the LD diagonal. -/
theorem twas_shape_validation (wts zs : Series) (ld : List (List ℚ)) (rc : Bool)
    (hkeys : seriesKeys wts = seriesKeys zs) :
    ((ld.length ≠ ncols ld ∨ ld.length ≠ wts.length) → ∀ sv : Option (List ℚ),
      test_pathway_twas wts zs ld sv rc =
        Except.error ("ld_matrix dimensions must match number of SNPs"))
    ∧ (∀ v : List ℚ, ld.length = ncols ld → ld.length = wts.length →
        v.length ≠ wts.length →
      test_pathway_twas wts zs ld (some v) rc =
        Except.error ("snp_var length must match number of SNPs"))
    ∧ test_pathway_twas wts zs ld none rc =
        test_pathway_twas wts zs ld (some (diag ld)) rc := by
  refine ⟨?_, ?_, ?_⟩
  · intro hbad sv
    rw [twas_aligned wts zs ld sv rc hkeys]
    unfold twas_core
    rw [if_pos (by rw [seriesVals_length]; exact hbad)]
  · intro v hsq hn hbad
    rw [twas_aligned wts zs ld (some v) rc hkeys]
    unfold twas_core
    rw [if_neg (by push_neg; rw [seriesVals_length]; exact ⟨hsq, hn⟩),
      if_pos (by rw [seriesVals_length]; exact hbad)]
  · rw [twas_aligned wts zs ld none rc hkeys,
      twas_aligned wts zs ld (some (diag ld)) rc hkeys]
    rfl

/-- Witness for C6: a 1×1 LD matrix against two SNPs fails with the dimension
error; a length-1 variance vector against two SNPs fails with the length
error; omitting the variance vector equals supplying the LD diagonal. -/
theorem twas_shape_validation_witness :
    test_pathway_twas [("a", (1:ℚ)), ("b", 1)] [("a", (1:ℚ)), ("b", 2)] [[1]] none false
      = Except.error ("ld_matrix dimensions must match number of SNPs")
    ∧ test_pathway_twas [("a", (1:ℚ)), ("b", 1)] [("a", (1:ℚ)), ("b", 2)]
        [[1, 0], [0, 1]] (some [1]) false
      = Except.error ("snp_var length must match number of SNPs")
    ∧ test_pathway_twas [("a", (1:ℚ)), ("b", 1)] [("a", (1:ℚ)), ("b", 2)]
        [[1, 0], [0, 1]] none false
      = test_pathway_twas [("a", (1:ℚ)), ("b", 1)] [("a", (1:ℚ)), ("b", 2)]
        [[1, 0], [0, 1]] (some (diag [[1, 0], [0, 1]])) false :=
  ⟨(twas_shape_validation [("a", (1:ℚ)), ("b", 1)] [("a", (1:ℚ)), ("b", 2)] [[1]] false
      (by decide)).1 (by decide) none,
   (twas_shape_validation [("a", (1:ℚ)), ("b", 1)] [("a", (1:ℚ)), ("b", 2)]
      [[1, 0], [0, 1]] false (by decide)).2.1 [1] (by decide) (by decide) (by decide),
   (twas_shape_validation [("a", (1:ℚ)), ("b", 1)] [("a", (1:ℚ)), ("b", 2)]
      [[1, 0], [0, 1]] false (by decide)).2.2⟩

/-- C4 counterexample: a `z_scores` key (`"b"`) absent from `snp_weights` does
NOT make the call fail — the extra key is silently dropped by the `.loc`
re-indexing and the test returns a normal result. -/
theorem twas_index_alignment_cex :
    test_pathway_twas [("a", (1:ℚ))] [("a", (1:ℚ)), ("b", 2)] [[1]] none false
      = Except.ok (some 1, 1, none) := by
  norm_num [test_pathway_twas, twas_core, locReindex, mapE, seriesKeys, seriesVals,
    List.lookup, quadForm, dot, matVec, diag, ncols, zipWith3Q]

/-- C4 (amended): a `snp_weights` key absent from `z_scores` fails with the
index-mismatch error; when every `snp_weights` key is present in `z_scores`
(extra `z_scores` keys allowed — they are silently dropped), `z_scores` is
re-indexed to `snp_weights`'s key order and the result equals the result on
the pre-aligned series. -/
theorem twas_index_alignment (wts zs : Series) (ld : List (List ℚ))
    (sv : Option (List ℚ)) (rc : Bool) (hndz : (seriesKeys zs).Nodup) :
    ((∃ k, k ∈ seriesKeys wts ∧ k ∉ seriesKeys zs) →
      test_pathway_twas wts zs ld sv rc =
        Except.error ("Indices of snp_weights and z_scores must match"))
    ∧ ((∀ k ∈ seriesKeys wts, k ∈ seriesKeys zs) →
      ∃ za : Series, locReindex zs (seriesKeys wts) = Except.ok za ∧
        seriesKeys za = seriesKeys wts ∧
        test_pathway_twas wts zs ld sv rc = test_pathway_twas wts za ld sv rc) := by
  constructor
  · rintro ⟨k, hkw, hkz⟩
    have hne : seriesKeys wts ≠ seriesKeys zs := fun hc => hkz (hc ▸ hkw)
    have hnone : zs.lookup k = none := lookup_eq_none_of_not_mem zs k hkz
    unfold test_pathway_twas
    rw [if_neg hne, locReindex_error zs k (seriesKeys wts) hkw hnone]
  · intro hsub
    obtain ⟨za, hza⟩ := locReindex_ok_of_subset zs (seriesKeys wts) hsub
    have hkza : seriesKeys za = seriesKeys wts := locReindex_ok_keys zs (seriesKeys wts) za hza
    refine ⟨za, hza, hkza, ?_⟩
    by_cases heq : seriesKeys wts = seriesKeys zs
    · have hzaz : za = zs := by
        rw [heq] at hza
        rw [locReindex_self zs hndz] at hza
        injection hza with h
        exact h.symm
      rw [hzaz]
    · calc test_pathway_twas wts zs ld sv rc
          = twas_core (seriesKeys wts) (seriesVals wts) (seriesVals za) ld sv rc := by
            unfold test_pathway_twas
            rw [if_neg heq, hza]
        _ = test_pathway_twas wts za ld sv rc :=
            (twas_aligned wts za ld sv rc hkza.symm).symm

/-- Witness for C4 (amended): with weights over keys [a,b] and Z-scores given
in order [b,a], re-indexing restores the weight order and the test result is
unchanged. -/
theorem twas_index_alignment_witness :
    (∀ k ∈ seriesKeys [("a", (1:ℚ)), ("b", 2)], k ∈ seriesKeys [("b", (4:ℚ)), ("a", 3)]) ∧
    ∃ za : Series, locReindex [("b", (4:ℚ)), ("a", 3)]
        (seriesKeys [("a", (1:ℚ)), ("b", 2)]) = Except.ok za ∧
      seriesKeys za = seriesKeys [("a", (1:ℚ)), ("b", 2)] ∧
      test_pathway_twas [("a", (1:ℚ)), ("b", 2)] [("b", (4:ℚ)), ("a", 3)]
          [[1, 0], [0, 1]] none false
        = test_pathway_twas [("a", (1:ℚ)), ("b", 2)] za [[1, 0], [0, 1]] none false :=
  ⟨by decide,
   (twas_index_alignment [("a", (1:ℚ)), ("b", 2)] [("b", (4:ℚ)), ("a", 3)]
      [[1, 0], [0, 1]] none false (by decide)).2 (by decide)⟩

/-! ### Congruence of the engine in the correlation method -/

theorem corr_congr (prims : Prims) (c1 c2 : String) (h : lowerStr c1 = lowerStr c2) :
    ∀ x y, _corr prims x y c1 = _corr prims x y c2 := by
  intro x y
  unfold _corr
  rw [h]

theorem aw_corr_congr (prims : Prims) (e : Frame) (c1 c2 : String)
    (h : ∀ x y, _corr prims x y c1 = _corr prims x y c2) :
    _activity_weighted prims e c1 = _activity_weighted prims e c2 := by
  have hmap : mapE (fun g =>
      match mapE (fun o => _corr prims (frameGet e g) (frameGet e o) c1)
          ((frameCols e).filter (fun o => o ≠ g)) with
      | Except.error er => Except.error er
      | Except.ok corrs => Except.ok (g,
          if corrs.isEmpty then 1 else listMean (corrs.map (fun c => |c|))))
      (frameCols e)
    = mapE (fun g =>
      match mapE (fun o => _corr prims (frameGet e g) (frameGet e o) c2)
          ((frameCols e).filter (fun o => o ≠ g)) with
      | Except.error er => Except.error er
      | Except.ok corrs => Except.ok (g,
          if corrs.isEmpty then 1 else listMean (corrs.map (fun c => |c|))))
      (frameCols e) := by
    apply mapE_congr
    intro g _
    have hinner : mapE (fun o => _corr prims (frameGet e g) (frameGet e o) c1)
        ((frameCols e).filter (fun o => o ≠ g))
      = mapE (fun o => _corr prims (frameGet e g) (frameGet e o) c2)
        ((frameCols e).filter (fun o => o ≠ g)) := by
      apply mapE_congr
      intro o _
      exact h (frameGet e g) (frameGet e o)
    rw [hinner]
  unfold _activity_weighted
  rw [hmap]

theorem aggregate_corr_congr (prims : Prims) (m c1 c2 : String) (sub : Frame)
    (h : ∀ x y, _corr prims x y c1 = _corr prims x y c2) :
    aggregate prims m c1 sub = aggregate prims m c2 sub := by
  unfold aggregate
  rw [aw_corr_congr prims sub c1 c2 h]

theorem processPathways_corr_congr (prims : Prims) (expr : Frame) (m c1 c2 : String)
    (h : ∀ x y, _corr prims x y c1 = _corr prims x y c2) :
    ∀ pws : List (String × List String),
    processPathways prims expr m c1 pws = processPathways prims expr m c2 pws := by
  intro pws
  induction pws with
  | nil => rfl
  | cons p rest ih =>
    obtain ⟨pw, genes⟩ := p
    simp only [processPathways]
    rw [aggregate_corr_congr prims m c1 c2 _ h, ih]

theorem compute_pas_corr_congr (prims : Prims) (expr : Frame)
    (pws : List (String × List String)) (m c1 c2 : String) (ns np : Bool)
    (h : ∀ x y, _corr prims x y c1 = _corr prims x y c2) :
    compute_pas prims expr pws m c1 ns np = compute_pas prims expr pws m c2 ns np := by
  unfold compute_pas
  rw [processPathways_corr_congr prims expr (lowerStr m) c1 c2 h pws]

/-- C9: `compute_pas` with `corr_method = "bicor"` returns exactly the same
PAS matrix and gene-weight map as with `corr_method = "pearson"` — the bicor
option is unimplemented and falls back to Pearson correlation. -/
theorem bicor_pearson_equiv (prims : Prims) (expr : Frame)
    (pws : List (String × List String)) (ns np : Bool) :
    compute_pas prims expr pws "activity_weighted" "bicor" ns np
      = compute_pas prims expr pws "activity_weighted" "pearson" ns np := by
  apply compute_pas_corr_congr
  intro x y
  unfold _corr _bicor
  rw [show lowerStr "bicor" = "bicor" from rfl, show lowerStr "pearson" = "pearson" from rfl]
  simp

/-- C10: the `method` and `corr_method` arguments of `compute_pas` are
case-insensitive — any two spellings with the same lowercasing (for example
"MEAN"/"mean", "Activity_Weighted"/"activity_weighted", "Pearson"/"pearson")
give exactly the same result, because both strings are lowercased before
dispatch. -/
theorem case_insensitive (prims : Prims) (expr : Frame)
    (pws : List (String × List String)) (m1 m2 c1 c2 : String) (ns np : Bool)
    (hm : lowerStr m1 = lowerStr m2) (hc : lowerStr c1 = lowerStr c2) :
    compute_pas prims expr pws m1 c1 ns np = compute_pas prims expr pws m2 c2 ns np := by
  unfold compute_pas
  rw [hm, processPathways_corr_congr prims expr (lowerStr m2) c1 c2
    (corr_congr prims c1 c2 hc)]

/-- Witness for C10: the mixed-case call ("MEAN", "Pearson") equals the
all-lowercase call ("mean", "pearson") on a concrete input. -/
theorem case_insensitive_witness :
    compute_pas constPrims [("A", [(1:ℚ), 2])] [("pw", ["A"])] "MEAN" "Pearson" false false
      = compute_pas constPrims [("A", [(1:ℚ), 2])] [("pw", ["A"])] "mean" "pearson" false false :=
  case_insensitive constPrims [("A", [(1:ℚ), 2])] [("pw", ["A"])] "MEAN" "mean"
    "Pearson" "pearson" false false (by decide) (by decide)

/-! ### Activity-weighted aggregation (C2) -/

theorem getD_map_mul (w : ℚ) : ∀ (l : List ℚ) (i : Nat),
    (l.map (fun x => x * w)).getD i 0 = l.getD i 0 * w := by
  intro l
  induction l with
  | nil => intro i; simp
  | cons x xs ih =>
    intro i
    cases i with
    | zero => rfl
    | succ j => simpa using ih j

theorem lookup_map_fst (F : String → ℚ) :
    ∀ (l : List String) (g : String), g ∈ l →
    (l.map (fun k => (k, F k))).lookup g = some (F g) := by
  intro l
  induction l with
  | nil => intro g hg; simp at hg
  | cons a rest ih =>
    intro g hg
    by_cases hga : g = a
    · subst hga
      exact lookup_cons_self g (F g) _
    · rw [List.map_cons, lookup_cons_ne g a (F a) _ hga]
      apply ih
      rcases List.mem_cons.mp hg with h | h
      · exact absurd h hga
      · exact h

theorem frameGet_of_mem : ∀ (df : Frame), (frameCols df).Nodup →
    ∀ c ∈ df, frameGet df c.1 = c.2 := by
  intro df
  induction df with
  | nil => intro _ c hc; simp at hc
  | cons p rest ih =>
    obtain ⟨k0, v⟩ := p
    intro hnd c hc
    simp only [frameCols, List.map_cons, List.nodup_cons] at hnd
    rcases List.mem_cons.mp hc with h | h
    · subst h
      show (((k0, v) :: rest).lookup k0).getD [] = v
      rw [lookup_cons_self]
      rfl
    · have hc1 : c.1 ∈ List.map Prod.fst rest := List.mem_map_of_mem Prod.fst h
      have hne : c.1 ≠ k0 := fun hq => hnd.1 (hq ▸ hc1)
      show (((k0, v) :: rest).lookup c.1).getD [] = c.2
      rw [lookup_cons_ne c.1 k0 v rest hne]
      exact ih hnd.2 c h

theorem exists_other_of_nodup {l : List String} (hnd : l.Nodup) (hlen : 2 ≤ l.length) :
    ∀ g ∈ l, ∃ o ∈ l, o ≠ g := by
  intro g hg
  cases l with
  | nil => simp at hg
  | cons a rest =>
    cases rest with
    | nil => simp at hlen
    | cons b rest2 =>
      have hab : a ≠ b := by
        simp only [List.nodup_cons, List.mem_cons] at hnd
        push_neg at hnd
        exact hnd.1.1
      by_cases hga : g = a
      · exact ⟨b, by simp, fun hc => hab (hc.trans hga).symm⟩
      · exact ⟨a, by simp, fun hc => hga hc.symm⟩

theorem filter_ne_not_empty {l : List String} (hnd : l.Nodup) (hlen : 2 ≤ l.length)
    (g : String) (hg : g ∈ l) : (l.filter (fun o => o ≠ g)).isEmpty = false := by
  obtain ⟨o, ho, hne⟩ := exists_other_of_nodup hnd hlen g hg
  have : o ∈ l.filter (fun o => o ≠ g) := List.mem_filter.mpr ⟨ho, by simp [hne]⟩
  cases hfe : l.filter (fun o => o ≠ g) with
  | nil => rw [hfe] at this; simp at this
  | cons x xs => rfl

/-- C2: activity-weighted aggregation.  With a single gene the weight is
exactly 1 and the PAS is that gene's expression vector unchanged; with at
least two (distinct) genes every gene's raw weight is the mean of the
absolute pairwise correlations with the other genes under the selected
correlation method, and the PAS is the weighted sum of expression values
divided by the sum of all weights. -/
theorem activity_weighted_spec (prims : Prims) (expr : Frame) (cm : String)
    (f : List ℚ → List ℚ → ℚ)
    (hf : ∀ x y, _corr prims x y cm = Except.ok (f x y))
    (hnd : (frameCols expr).Nodup) :
    (∀ g : String, frameCols expr = [g] →
      _activity_weighted prims expr cm = Except.ok (frameGet expr g, [(g, 1)]))
    ∧ (2 ≤ (frameCols expr).length →
      _activity_weighted prims expr cm = Except.ok (awPAS f expr, awWeights f expr)) := by
  constructor
  · intro g hcols
    unfold _activity_weighted
    rw [hcols]
    simp
  · intro hlen
    have hlen1 : ¬((frameCols expr).length = 1) := by omega
    have houter : mapE (fun g =>
        match mapE (fun o => _corr prims (frameGet expr g) (frameGet expr o) cm)
            ((frameCols expr).filter (fun o => o ≠ g)) with
        | Except.error e => Except.error e
        | Except.ok corrs => Except.ok (g,
            if corrs.isEmpty then 1 else listMean (corrs.map (fun c => |c|))))
        (frameCols expr)
      = Except.ok (awWeights f expr) := by
      apply mapE_ok _ (fun g => (g, awWeight f expr g))
      intro g hg
      have hinner : mapE (fun o => _corr prims (frameGet expr g) (frameGet expr o) cm)
          ((frameCols expr).filter (fun o => o ≠ g))
        = Except.ok (((frameCols expr).filter (fun o => o ≠ g)).map
            (fun o => f (frameGet expr g) (frameGet expr o))) :=
        mapE_ok _ _ _ (fun o _ => hf (frameGet expr g) (frameGet expr o))
      rw [hinner]
      have hemp0 : ((frameCols expr).filter (fun o => o ≠ g)).isEmpty = false :=
        filter_ne_not_empty hnd hlen g hg
      have hemp : ((((frameCols expr).filter (fun o => o ≠ g)).map
          (fun o => f (frameGet expr g) (frameGet expr o)))).isEmpty = false := by
        cases hq : (frameCols expr).filter (fun o => o ≠ g) with
        | nil => rw [hq] at hemp0; simp at hemp0
        | cons x xs => rfl
      simp only [hemp, Bool.false_eq_true, if_false, List.map_map]
      rfl
    unfold _activity_weighted
    have hpas : (List.range (nRowsF expr)).map (fun i =>
        (rowAt (expr.map (fun c =>
          (c.1, c.2.map (fun x => x * (((awWeights f expr).lookup c.1).getD 0))))) i).sum
          / ((awWeights f expr).map Prod.snd).sum)
      = awPAS f expr := by
      unfold awPAS
      apply List.map_congr_left
      intro i _
      have hden : ((awWeights f expr).map Prod.snd).sum
          = ((frameCols expr).map (fun g => awWeight f expr g)).sum := by
        unfold awWeights
        rw [List.map_map]
        rfl
      have hnum : rowAt (expr.map (fun c =>
            (c.1, c.2.map (fun x => x * (((awWeights f expr).lookup c.1).getD 0))))) i
          = (frameCols expr).map (fun g => awWeight f expr g * (frameGet expr g).getD i 0) := by
        unfold rowAt frameCols
        rw [List.map_map, List.map_map]
        apply List.map_congr_left
        intro c hc
        show ((c.2.map (fun x => x * (((awWeights f expr).lookup c.1).getD 0)))).getD i 0
          = awWeight f expr c.1 * (frameGet expr c.1).getD i 0
        rw [getD_map_mul]
        unfold awWeights
        rw [lookup_map_fst (awWeight f expr) (frameCols expr) c.1
          (List.mem_map_of_mem Prod.fst hc)]
        rw [frameGet_of_mem expr hnd c hc]
        show c.2.getD i 0 * awWeight f expr c.1 = awWeight f expr c.1 * c.2.getD i 0
        rw [mul_comm]
      rw [hden, hnum]
    rw [if_neg hlen1, houter]
    show Except.ok ((List.range (nRowsF expr)).map (fun i =>
        (rowAt (expr.map (fun c =>
          (c.1, c.2.map (fun x => x * (((awWeights f expr).lookup c.1).getD 0))))) i).sum
          / ((awWeights f expr).map Prod.snd).sum), awWeights f expr)
      = Except.ok (awPAS f expr, awWeights f expr)
    rw [hpas]

/-- Witness for C2: a single-gene pathway gets weight 1 and the unchanged
column; a two-gene pathway gets the mean-absolute-correlation weights and the
weighted-average PAS. -/
theorem activity_weighted_spec_witness :
    _activity_weighted constPrims [("A", [(1:ℚ), 2])] "pearson"
      = Except.ok ([(1:ℚ), 2], [("A", 1)])
    ∧ _activity_weighted constPrims [("A", [(1:ℚ), 2]), ("B", [(2:ℚ), 3])] "pearson"
      = Except.ok (awPAS constPrims.pearson [("A", [(1:ℚ), 2]), ("B", [(2:ℚ), 3])],
          awWeights constPrims.pearson [("A", [(1:ℚ), 2]), ("B", [(2:ℚ), 3])]) :=
  ⟨(activity_weighted_spec constPrims [("A", [(1:ℚ), 2])] "pearson" constPrims.pearson
      (fun _ _ => rfl) (by decide)).1 "A" rfl,
   (activity_weighted_spec constPrims [("A", [(1:ℚ), 2]), ("B", [(2:ℚ), 3])] "pearson"
      constPrims.pearson (fun _ _ => rfl) (by decide)).2 (by decide)⟩

/-! ### Normalization and pathway skipping (C7, C8) -/

theorem compute_pas_ok (prims : Prims) (expr : Frame)
    (pws : List (String × List String)) (m cm : String) (ns np : Bool)
    (sw : Frame × List (String × Series))
    (hp : processPathways prims expr (lowerStr m) cm pws = Except.ok sw) :
    compute_pas prims expr pws m cm ns np = Except.ok
      ((if np && !frameEmpty (if ns && !frameEmpty sw.1 then normSamples prims sw.1 else sw.1)
          then normPathways prims (if ns && !frameEmpty sw.1 then normSamples prims sw.1 else sw.1)
          else (if ns && !frameEmpty sw.1 then normSamples prims sw.1 else sw.1)),
        if lowerStr m = "activity_weighted" then some sw.2 else none) := by
  unfold compute_pas
  rw [hp]

theorem compute_pas_err (prims : Prims) (expr : Frame)
    (pws : List (String × List String)) (m cm : String) (ns np : Bool) (e : String)
    (hp : processPathways prims expr (lowerStr m) cm pws = Except.error e) :
    compute_pas prims expr pws m cm ns np = Except.error e := by
  unfold compute_pas
  rw [hp]

theorem frameEmpty_normSamples (prims : Prims) (df : Frame) :
    frameEmpty (normSamples prims df) = frameEmpty df := by
  cases df with
  | nil => rfl
  | cons c rest =>
    obtain ⟨nm, vals⟩ := c
    cases vals with
    | nil => rfl
    | cons x xs => rfl

theorem frameCols_normSamples (prims : Prims) (df : Frame) :
    frameCols (normSamples prims df) = frameCols df := by
  unfold frameCols normSamples
  rw [List.map_map]
  rfl

theorem frameCols_normPathways (prims : Prims) (df : Frame) :
    frameCols (normPathways prims df) = frameCols df := by
  unfold frameCols normPathways
  rw [List.map_map]
  rfl

theorem frameCols_ite_normSamples (prims : Prims) (b : Bool) (d : Frame) :
    frameCols (if b = true then normSamples prims d else d) = frameCols d := by
  cases b with
  | false => rfl
  | true => rw [if_pos rfl]; exact frameCols_normSamples prims d

theorem frameCols_ite_normPathways (prims : Prims) (b : Bool) (d : Frame) :
    frameCols (if b = true then normPathways prims d else d) = frameCols d := by
  cases b with
  | false => rfl
  | true => rw [if_pos rfl]; exact frameCols_normPathways prims d

/-- C7: on a non-empty PAS matrix, `normalize_samples` z-scores each pathway
column (mean subtracted, divided by the population standard deviation,
divisor N), `normalize_pathways` z-scores each sample row, and when both
flags are set the samples pass is applied before the pathways pass. -/
theorem pas_normalization (prims : Prims) (expr : Frame)
    (pws : List (String × List String)) (m cm : String) (df : Frame)
    (w : Option (List (String × Series)))
    (h : compute_pas prims expr pws m cm false false = Except.ok (df, w))
    (hne : frameEmpty df = false) :
    compute_pas prims expr pws m cm true false = Except.ok (normSamples prims df, w)
    ∧ compute_pas prims expr pws m cm false true = Except.ok (normPathways prims df, w)
    ∧ compute_pas prims expr pws m cm true true
      = Except.ok (normPathways prims (normSamples prims df), w) := by
  cases hp : processPathways prims expr (lowerStr m) cm pws with
  | error e =>
    rw [compute_pas_err prims expr pws m cm false false e hp] at h
    exact absurd h (by simp)
  | ok sw =>
    rw [compute_pas_ok prims expr pws m cm false false sw hp] at h
    simp only [Bool.false_and, Bool.false_eq_true, if_false] at h
    rw [Except.ok.injEq, Prod.mk.injEq] at h
    obtain ⟨hdf, hw⟩ := h
    subst hdf
    refine ⟨?_, ?_, ?_⟩
    · rw [compute_pas_ok prims expr pws m cm true false sw hp, hw]
      simp [hne, Bool.false_and]
    · rw [compute_pas_ok prims expr pws m cm false true sw hp, hw]
      simp [hne, Bool.false_and]
    · rw [compute_pas_ok prims expr pws m cm true true sw hp, hw]
      simp [hne, frameEmpty_normSamples]

/-- Witness for C7 on a concrete one-gene pathway: both normalization passes
and their samples-then-pathways composition. -/
theorem pas_normalization_witness :
    compute_pas constPrims [("A", [(1:ℚ)])] [("p1", ["A"])]
      "activity_weighted" "pearson" true false
      = Except.ok (normSamples constPrims [("p1", [(1:ℚ)])], some [("p1", [("A", 1)])])
    ∧ compute_pas constPrims [("A", [(1:ℚ)])] [("p1", ["A"])]
      "activity_weighted" "pearson" false true
      = Except.ok (normPathways constPrims [("p1", [(1:ℚ)])], some [("p1", [("A", 1)])])
    ∧ compute_pas constPrims [("A", [(1:ℚ)])] [("p1", ["A"])]
      "activity_weighted" "pearson" true true
      = Except.ok (normPathways constPrims (normSamples constPrims [("p1", [(1:ℚ)])]),
          some [("p1", [("A", 1)])]) :=
  pas_normalization constPrims [("A", [(1:ℚ)])] [("p1", ["A"])]
    "activity_weighted" "pearson" [("p1", [(1:ℚ)])] (some [("p1", [("A", 1)])])
    (by decide) (by decide)

theorem aggregate_weight_some (prims : Prims) (cm : String) (sub : Frame)
    (pv : List ℚ × Option Series)
    (h : aggregate prims "activity_weighted" cm sub = Except.ok pv) :
    ∃ w0, pv.2 = some w0 := by
  unfold aggregate at h
  simp only [String.reduceEq, if_false, if_true] at h
  cases haw : _activity_weighted prims sub cm with
  | error e => rw [haw] at h; exact absurd h (by simp)
  | ok pr =>
    rw [haw] at h
    rw [Except.ok.injEq] at h
    exact ⟨pr.2, by rw [← h]⟩

theorem processPathways_cols (prims : Prims) (expr : Frame) (m cm : String) :
    ∀ (pws : List (String × List String)) (sw : Frame × List (String × Series)),
    processPathways prims expr m cm pws = Except.ok sw →
    frameCols sw.1 = (pws.filter (fun p =>
      !(p.2.filter (fun g => decide (g ∈ frameCols expr))).isEmpty)).map Prod.fst
    ∧ (m = "activity_weighted" →
      sw.2.map Prod.fst = (pws.filter (fun p =>
        !(p.2.filter (fun g => decide (g ∈ frameCols expr))).isEmpty)).map Prod.fst) := by
  intro pws
  induction pws with
  | nil =>
    intro sw h
    simp only [processPathways, Except.ok.injEq] at h
    rw [← h]
    exact ⟨rfl, fun _ => rfl⟩
  | cons p rest ih =>
    obtain ⟨pw, genes⟩ := p
    intro sw h
    simp only [processPathways] at h
    by_cases hskip : (genes.filter (fun g => decide (g ∈ frameCols expr))).isEmpty = true
    · rw [if_pos hskip] at h
      have hrec := ih sw h
      rw [List.filter_cons]
      simp only [hskip, Bool.not_true, Bool.false_eq_true, if_false]
      exact hrec
    · rw [if_neg hskip] at h
      cases haggr : aggregate prims m cm
          (subFrame expr (genes.filter (fun g => decide (g ∈ frameCols expr)))) with
      | error e => rw [haggr] at h; exact absurd h (by simp)
      | ok pv =>
        rw [haggr] at h
        cases hrest : processPathways prims expr m cm rest with
        | error e => rw [hrest] at h; exact absurd h (by simp)
        | ok sw2 =>
          rw [hrest] at h
          rw [Except.ok.injEq] at h
          have hrec := ih sw2 hrest
          have hemp : (genes.filter (fun g => decide (g ∈ frameCols expr))).isEmpty = false :=
            Bool.not_eq_true _ ▸ (by simpa using hskip)
          rw [← h]
          constructor
          · rw [List.filter_cons]
            simp only [hemp, Bool.not_false, if_true]
            show pw :: frameCols sw2.1 = pw :: _
            rw [hrec.1]
          · intro hm
            obtain ⟨w0, hw0⟩ := aggregate_weight_some prims cm _ pv (hm ▸ haggr)
            rw [List.filter_cons]
            simp only [hemp, Bool.not_false, if_true]
            show (match pv.2 with
              | some w => (pw, w) :: sw2.2
              | none => sw2.2).map Prod.fst = pw :: _
            rw [hw0]
            show pw :: sw2.2.map Prod.fst = pw :: _
            rw [hrec.2 hm]

/-- C8: a pathway whose gene set has empty intersection with the expression
columns contributes no column to the PAS matrix and no entry to the gene
weight map — the output has exactly one column per pathway with at least one
gene present, in input order. -/
theorem pathway_skipping (prims : Prims) (expr : Frame)
    (pws : List (String × List String)) (m cm : String) (ns np : Bool)
    (df : Frame) (w : Option (List (String × Series)))
    (h : compute_pas prims expr pws m cm ns np = Except.ok (df, w)) :
    frameCols df = (pws.filter (fun p =>
      !(p.2.filter (fun g => decide (g ∈ frameCols expr))).isEmpty)).map Prod.fst
    ∧ ∀ ws, w = some ws → ws.map Prod.fst = (pws.filter (fun p =>
      !(p.2.filter (fun g => decide (g ∈ frameCols expr))).isEmpty)).map Prod.fst := by
  cases hp : processPathways prims expr (lowerStr m) cm pws with
  | error e =>
    rw [compute_pas_err prims expr pws m cm ns np e hp] at h
    exact absurd h (by simp)
  | ok sw =>
    rw [compute_pas_ok prims expr pws m cm ns np sw hp] at h
    rw [Except.ok.injEq, Prod.mk.injEq] at h
    obtain ⟨hdf, hw⟩ := h
    have hcols := processPathways_cols prims expr (lowerStr m) cm pws sw hp
    constructor
    · rw [← hdf, frameCols_ite_normPathways, frameCols_ite_normSamples, hcols.1]
    · intro ws hws
      rw [hws] at hw
      by_cases hmeth : lowerStr m = "activity_weighted"
      · rw [if_pos hmeth] at hw
        rw [Option.some.injEq] at hw
        rw [← hw]
        exact hcols.2 hmeth
      · rw [if_neg hmeth] at hw
        exact absurd hw (by simp)

/-- Witness for C8: a pathway with no genes in the expression matrix is
skipped, yielding an empty PAS matrix and no weight entries. -/
theorem pathway_skipping_witness :
    frameCols ([] : Frame) = ([("p1", ["X"])].filter (fun p =>
      !(p.2.filter (fun g => decide (g ∈ frameCols [("A", [(1:ℚ)])]))).isEmpty)).map Prod.fst
    ∧ ∀ ws, (none : Option (List (String × Series))) = some ws →
      ws.map Prod.fst = ([("p1", ["X"])].filter (fun p =>
        !(p.2.filter (fun g => decide (g ∈ frameCols [("A", [(1:ℚ)])]))).isEmpty)).map Prod.fst :=
  pathway_skipping constPrims [("A", [(1:ℚ)])] [("p1", ["X"])] "mean" "pearson"
    false false [] none (by decide)

/-! ### Method and correlation-method validation (C5) -/

theorem mapE_cons_err {α β : Type} (f : α → Except String β) (a : α) (l : List α)
    (e : String) (h : f a = Except.error e) : mapE f (a :: l) = Except.error e := by
  simp only [mapE, h]

theorem subFrame_cols (df : Frame) (genes : List String) :
    frameCols (subFrame df genes) = genes := by
  unfold frameCols subFrame
  rw [List.map_map]
  have hid : (Prod.fst ∘ fun g => (g, frameGet df g)) = id := rfl
  rw [hid, List.map_id]

theorem corr_unknown (prims : Prims) (x y : List ℚ) (cm : String)
    (h : lowerStr cm ∉ (["pearson", "spearman", "bicor"] : List String)) :
    _corr prims x y cm = Except.error ("Unknown correlation method: " ++ lowerStr cm) := by
  unfold _corr
  rw [if_neg (fun hc => h (by simp [hc])), if_neg (fun hc => h (by simp [hc])),
    if_neg (fun hc => h (by simp [hc]))]

theorem corr_error_msg (prims : Prims) (x y : List ℚ) (cm : String) (e : String)
    (h : _corr prims x y cm = Except.error e) :
    e = "Unknown correlation method: " ++ lowerStr cm := by
  unfold _corr at h
  by_cases h1 : lowerStr cm = "pearson"
  · rw [if_pos h1] at h
    exact absurd h (by simp)
  · rw [if_neg h1] at h
    by_cases h2 : lowerStr cm = "spearman"
    · rw [if_pos h2] at h
      exact absurd h (by simp)
    · rw [if_neg h2] at h
      by_cases h3 : lowerStr cm = "bicor"
      · rw [if_pos h3] at h
        exact absurd h (by simp)
      · rw [if_neg h3] at h
        injection h with hh
        exact hh.symm

theorem aw_error_msg (prims : Prims) (ex : Frame) (cm : String) (e : String)
    (h : _activity_weighted prims ex cm = Except.error e) :
    e = "Unknown correlation method: " ++ lowerStr cm := by
  unfold _activity_weighted at h
  by_cases h1 : (frameCols ex).length = 1
  · rw [if_pos h1] at h
    exact absurd h (by simp)
  · rw [if_neg h1] at h
    cases hm : mapE (fun g =>
        match mapE (fun o => _corr prims (frameGet ex g) (frameGet ex o) cm)
            ((frameCols ex).filter (fun o => o ≠ g)) with
        | Except.error e => Except.error e
        | Except.ok corrs => Except.ok (g,
            if corrs.isEmpty then 1 else listMean (corrs.map (fun c => |c|))))
        (frameCols ex) with
    | error e2 =>
      rw [hm] at h
      injection h with hh
      obtain ⟨g, _, hge⟩ := mapE_error_mem _ (frameCols ex) e2 hm
      cases hi : mapE (fun o => _corr prims (frameGet ex g) (frameGet ex o) cm)
          ((frameCols ex).filter (fun o => o ≠ g)) with
      | error e3 =>
        rw [hi] at hge
        injection hge with hge2
        obtain ⟨o, _, hoe⟩ := mapE_error_mem _ _ e3 hi
        rw [← hh, ← hge2]
        exact corr_error_msg prims _ _ cm e3 hoe
      | ok corrs =>
        rw [hi] at hge
        exact absurd hge (by simp)
    | ok ws =>
      rw [hm] at h
      exact absurd h (by simp)

theorem aw_unknown_corr (prims : Prims) (ex : Frame) (cm : String)
    (hcm : lowerStr cm ∉ (["pearson", "spearman", "bicor"] : List String))
    (g1 g2 : String) (hg1 : g1 ∈ frameCols ex) (hg2 : g2 ∈ frameCols ex) (hne : g1 ≠ g2) :
    _activity_weighted prims ex cm
      = Except.error ("Unknown correlation method: " ++ lowerStr cm) := by
  have h1 : ¬((frameCols ex).length = 1) := by
    intro hc
    cases hcols : frameCols ex with
    | nil => rw [hcols] at hg1; simp at hg1
    | cons c0 ctail =>
      rw [hcols] at hc
      simp only [List.length_cons, Nat.succ.injEq] at hc
      have hct : ctail = [] := List.length_eq_zero.mp hc
      rw [hcols, hct] at hg1 hg2
      simp at hg1 hg2
      exact hne (hg1.trans hg2.symm)
  unfold _activity_weighted
  rw [if_neg h1]
  cases hcols : frameCols ex with
  | nil => rw [hcols] at hg1; simp at hg1
  | cons c0 ctail =>
    rw [hcols] at hg1 hg2
    have hother : ∃ o, o ∈ (c0 :: ctail).filter (fun o => o ≠ c0) := by
      by_cases hgc : g1 = c0
      · have hg2ne : g2 ≠ c0 := fun hc => hne (hgc.trans hc.symm)
        exact ⟨g2, List.mem_filter.mpr ⟨hg2, by simp [hg2ne]⟩⟩
      · exact ⟨g1, List.mem_filter.mpr ⟨hg1, by simp [hgc]⟩⟩
    obtain ⟨o, ho⟩ := hother
    cases hfil : (c0 :: ctail).filter (fun o => o ≠ c0) with
    | nil => rw [hfil] at ho; simp at ho
    | cons o0 os =>
      have hinner : mapE (fun o => _corr prims (frameGet ex c0) (frameGet ex o) cm)
          ((c0 :: ctail).filter (fun o => o ≠ c0))
          = Except.error ("Unknown correlation method: " ++ lowerStr cm) := by
        rw [hfil]
        exact mapE_cons_err _ o0 os _ (corr_unknown prims _ _ cm hcm)
      have houter : mapE (fun g =>
          match mapE (fun o => _corr prims (frameGet ex g) (frameGet ex o) cm)
              ((c0 :: ctail).filter (fun o => o ≠ g)) with
          | Except.error e => Except.error e
          | Except.ok corrs => Except.ok (g,
              if corrs.isEmpty then 1 else listMean (corrs.map (fun c => |c|))))
          (c0 :: ctail)
          = Except.error ("Unknown correlation method: " ++ lowerStr cm) := by
        apply mapE_cons_err
        rw [hinner]
      rw [houter]

theorem aggregate_aw_error_msg (prims : Prims) (cm : String) (sub : Frame) (e : String)
    (h : aggregate prims "activity_weighted" cm sub = Except.error e) :
    e = "Unknown correlation method: " ++ lowerStr cm := by
  unfold aggregate at h
  simp only [String.reduceEq, if_false, if_true] at h
  cases haw : _activity_weighted prims sub cm with
  | error e2 =>
    rw [haw] at h
    injection h with hh
    rw [← hh]
    exact aw_error_msg prims sub cm e2 haw
  | ok pr =>
    rw [haw] at h
    exact absurd h (by simp)

theorem aggregate_aw_unknown (prims : Prims) (cm : String) (sub : Frame)
    (hcm : lowerStr cm ∉ (["pearson", "spearman", "bicor"] : List String))
    (g1 g2 : String) (hg1 : g1 ∈ frameCols sub) (hg2 : g2 ∈ frameCols sub) (hne : g1 ≠ g2) :
    aggregate prims "activity_weighted" cm sub
      = Except.error ("Unknown correlation method: " ++ lowerStr cm) := by
  unfold aggregate
  simp only [String.reduceEq, if_false, if_true]
  rw [aw_unknown_corr prims sub cm hcm g1 g2 hg1 hg2 hne]

theorem processPathways_unknown_method (prims : Prims) (expr : Frame) (m cm : String)
    (hm : m ∉ (["sum", "mean", "median", "activity_weighted"] : List String)) :
    ∀ pws : List (String × List String),
    (∃ p ∈ pws, ∃ g ∈ p.2, g ∈ frameCols expr) →
    processPathways prims expr m cm pws
      = Except.error ("Unknown PAS method: " ++ m) := by
  intro pws
  induction pws with
  | nil =>
    rintro ⟨p, hp, _⟩
    simp at hp
  | cons q rest ih =>
    obtain ⟨pw, genes⟩ := q
    rintro ⟨p, hp, g, hg, hgc⟩
    simp only [processPathways]
    by_cases hskip : (genes.filter (fun g => decide (g ∈ frameCols expr))).isEmpty = true
    · rw [if_pos hskip]
      apply ih
      rcases List.mem_cons.mp hp with hph | hpt
      · exfalso
        rw [hph] at hg
        have hmem : g ∈ genes.filter (fun g => decide (g ∈ frameCols expr)) :=
          List.mem_filter.mpr ⟨hg, by simp [hgc]⟩
        cases hfe : genes.filter (fun g => decide (g ∈ frameCols expr)) with
        | nil => rw [hfe] at hmem; simp at hmem
        | cons x xs => rw [hfe] at hskip; simp at hskip
      · exact ⟨p, hpt, g, hg, hgc⟩
    · rw [if_neg hskip]
      have haggr : aggregate prims m cm (subFrame expr
          (genes.filter (fun g => decide (g ∈ frameCols expr))))
          = Except.error ("Unknown PAS method: " ++ m) := by
        unfold aggregate
        rw [if_neg (fun hc => hm (by simp [hc])), if_neg (fun hc => hm (by simp [hc])),
          if_neg (fun hc => hm (by simp [hc])), if_neg (fun hc => hm (by simp [hc]))]
      rw [haggr]

theorem processPathways_unknown_corr (prims : Prims) (expr : Frame) (cm : String)
    (hcm : lowerStr cm ∉ (["pearson", "spearman", "bicor"] : List String)) :
    ∀ pws : List (String × List String),
    (∃ p ∈ pws, ∃ g1 ∈ p.2.filter (fun g => decide (g ∈ frameCols expr)),
      ∃ g2 ∈ p.2.filter (fun g => decide (g ∈ frameCols expr)), g1 ≠ g2) →
    processPathways prims expr "activity_weighted" cm pws
      = Except.error ("Unknown correlation method: " ++ lowerStr cm) := by
  intro pws
  induction pws with
  | nil =>
    rintro ⟨p, hp, _⟩
    simp at hp
  | cons q rest ih =>
    obtain ⟨pw, genes⟩ := q
    rintro ⟨p, hp, g1, hg1, g2, hg2, hne⟩
    simp only [processPathways]
    by_cases hskip : (genes.filter (fun g => decide (g ∈ frameCols expr))).isEmpty = true
    · rw [if_pos hskip]
      apply ih
      rcases List.mem_cons.mp hp with hph | hpt
      · exfalso
        rw [hph] at hg1
        cases hfe : genes.filter (fun g => decide (g ∈ frameCols expr)) with
        | nil => rw [hfe] at hg1; simp at hg1
        | cons x xs => rw [hfe] at hskip; simp at hskip
      · exact ⟨p, hpt, g1, hg1, g2, hg2, hne⟩
    · rw [if_neg hskip]
      rcases List.mem_cons.mp hp with hph | hpt
      · have hg1c : g1 ∈ frameCols (subFrame expr
            (genes.filter (fun g => decide (g ∈ frameCols expr)))) := by
          rw [subFrame_cols]
          rw [hph] at hg1
          simpa using hg1
        have hg2c : g2 ∈ frameCols (subFrame expr
            (genes.filter (fun g => decide (g ∈ frameCols expr)))) := by
          rw [subFrame_cols]
          rw [hph] at hg2
          simpa using hg2
        rw [aggregate_aw_unknown prims cm _ hcm g1 g2 hg1c hg2c hne]
      · cases haggr : aggregate prims "activity_weighted" cm (subFrame expr
            (genes.filter (fun g => decide (g ∈ frameCols expr)))) with
        | error e =>
          rw [aggregate_aw_error_msg prims cm _ e haggr]
        | ok pv =>
          rw [ih ⟨p, hpt, g1, hg1, g2, hg2, hne⟩]

/-- C5 counterexample: `compute_pas` with an unknown method but an empty
pathway dictionary raises no error, and with an unknown correlation method
but only a single-gene pathway raises no error — validation happens inside
the pathway loop, not on every call. -/
theorem compute_pas_validation_cex :
    compute_pas constPrims [("A", [(1:ℚ), 2])] [] "bogus" "pearson" false false
      = Except.ok ([], none)
    ∧ compute_pas constPrims [("A", [(1:ℚ), 2])] [("pw", ["A"])]
        "activity_weighted" "bogus" false false
      = Except.ok ([("pw", [(1:ℚ), 2])], some [("pw", [("A", 1)])]) := by
  constructor
  · decide
  · decide

/-- C5 (amended): an unknown method fails with the InvalidArgument error
naming the (lowercased) offending value whenever at least one pathway has a
gene present in the expression matrix; under `activity_weighted`, an unknown
correlation method fails with its InvalidArgument error whenever at least one
pathway has two distinct genes present.  With no processed pathway (or only
single-gene pathways for the correlation check) the loop never reaches the
check and the call returns normally. -/
theorem compute_pas_validation (prims : Prims) (expr : Frame)
    (pws : List (String × List String)) (m cm : String) (ns np : Bool) :
    ((lowerStr m ∉ (["sum", "mean", "median", "activity_weighted"] : List String)) →
      (∃ p ∈ pws, ∃ g ∈ p.2, g ∈ frameCols expr) →
      compute_pas prims expr pws m cm ns np
        = Except.error ("Unknown PAS method: " ++ lowerStr m))
    ∧ ((lowerStr cm ∉ (["pearson", "spearman", "bicor"] : List String)) →
      (∃ p ∈ pws, ∃ g1 ∈ p.2.filter (fun g => decide (g ∈ frameCols expr)),
        ∃ g2 ∈ p.2.filter (fun g => decide (g ∈ frameCols expr)), g1 ≠ g2) →
      compute_pas prims expr pws "activity_weighted" cm ns np
        = Except.error ("Unknown correlation method: " ++ lowerStr cm)) := by
  constructor
  · intro hm hex
    exact compute_pas_err prims expr pws m cm ns np _
      (processPathways_unknown_method prims expr (lowerStr m) cm hm pws hex)
  · intro hcm hex
    exact compute_pas_err prims expr pws "activity_weighted" cm ns np _
      (processPathways_unknown_corr prims expr cm hcm pws hex)

/-- Witness for C5 (amended) on a concrete two-gene pathway. -/
theorem compute_pas_validation_witness :
    compute_pas constPrims [("A", [(1:ℚ)]), ("B", [2])] [("pw", ["A", "B"])]
        "bogus" "bogus" false false
      = Except.error ("Unknown PAS method: " ++ lowerStr "bogus")
    ∧ compute_pas constPrims [("A", [(1:ℚ)]), ("B", [2])] [("pw", ["A", "B"])]
        "activity_weighted" "bogus" false false
      = Except.error ("Unknown correlation method: " ++ lowerStr "bogus") :=
  ⟨(compute_pas_validation constPrims [("A", [(1:ℚ)]), ("B", [2])] [("pw", ["A", "B"])]
      "bogus" "bogus" false false).1 (by decide) (by decide),
   (compute_pas_validation constPrims [("A", [(1:ℚ)]), ("B", [2])] [("pw", ["A", "B"])]
      "bogus" "bogus" false false).2 (by decide) (by decide)⟩

end PathWAS
